import Mathlib

/-!
Shallow embedding of the incremental reconciliation engine of
`scripts/scrape_stats.py`: the validity oracle, the task planner, the store
merger / checkpointing, the metadata reconciler and the orphan auditor.

Python dicts are modelled as insertion-ordered association lists
(`List (String × α)`): writing to an existing key replaces the value in
place, writing a fresh key appends at the end — exactly the observable
iteration/update semantics of CPython dicts used by the script.
-/

namespace ScrapeStats

/-! ### Association lists modelling Python dicts -/

/-- `m[k]` / `m.get(k)`: first (and, given the `insertA` discipline, only)
binding of key `k`. -/
def lookupA {α : Type} (k : String) : List (String × α) → Option α
  | [] => none
  | (k', v) :: rest => if k' = k then some v else lookupA k rest

/-- `m[k] = v`: replace in place if the key exists, else append. -/
def insertA {α : Type} (k : String) (v : α) : List (String × α) → List (String × α)
  | [] => [(k, v)]
  | (k', v') :: rest => if k' = k then (k', v) :: rest else (k', v') :: insertA k v rest

/-- `dst.update(src)` / building a dict by iterating `src` over `dst`. -/
def dictUpdate {α : Type} (dst src : List (String × α)) : List (String × α) :=
  src.foldl (fun acc kv => insertA kv.1 kv.2 acc) dst

/-- The keys of a dict, in iteration order. -/
def keysA {α : Type} (m : List (String × α)) : List String := m.map Prod.fst

/-! ### Metric values and the validity oracle (`is_valid_metric_value`,
`has_invalid_metrics`, lines 95–133) -/

/-- A JSON metric value as seen by `is_valid_metric_value`: `null`, some
non-string value, or a string. -/
inductive MetricValue where
  | null
  | nonText
  | str (s : String)
deriving DecidableEq, Repr

/-- One scraped metric bundle: a dict from metric names to values. -/
abbrev Bundle := List (String × MetricValue)

/-- `metrics.{mode} = {language: bundle}`. -/
abbrev LangMap := List (String × Bundle)

/-- `layout.metrics = {mode: {language: bundle}}`. -/
abbrev ModeMap := List (String × LangMap)

/-- Whitespace stripped by CPython's float parser (ASCII fragment;
the script's metric values are ASCII). -/
def isPySpace (c : Char) : Bool :=
  c = ' ' || c = '\t' || c = '\n' || c = '\r' || c.toNat = 11 || c.toNat = 12

/-- Consume the tail of a Python `digitpart`: `digit (["_"] digit)*` after its
first digit (underscores only between digits). Returns the unconsumed rest. -/
def digitTail : List Char → List Char
  | [] => []
  | c :: rest =>
    if c.isDigit then digitTail rest
    else if c = '_' then
      match rest with
      | [] => ['_']
      | d :: rest' => if d.isDigit then digitTail rest' else '_' :: d :: rest'
    else c :: rest

/-- Consume a whole `digitpart` (at least one digit); `none` if the input does
not start with a digit. -/
def takeDigitpart : List Char → Option (List Char)
  | c :: rest => if c.isDigit then some (digitTail rest) else none
  | [] => none

/-- Consume the mantissa of a float literal:
`digitpart ["." [digitpart]] | "." digitpart`. -/
def parseMantissa (l : List Char) : Option (List Char) :=
  match takeDigitpart l with
  | some rest =>
    match rest with
    | '.' :: r => some ((takeDigitpart r).getD r)
    | _ => some rest
  | none =>
    match l with
    | '.' :: r => takeDigitpart r
    | _ => none

/-- After the mantissa: either nothing is left, or an exponent
`("e"|"E") [sign] digitpart` consumes the whole rest. -/
def parseExpTail : List Char → Bool
  | [] => true
  | c :: rest =>
    if c = 'e' || c = 'E' then
      match rest with
      | s :: r =>
        if s = '+' || s = '-' then takeDigitpart r = some []
        else takeDigitpart rest = some []
      | [] => false
    else false

/-- Drop one optional leading sign. -/
def stripSign : List Char → List Char
  | c :: rest => if c = '+' || c = '-' then rest else c :: rest
  | [] => []

/-- Model of CPython `float(s)` acceptance on ASCII strings: optional
whitespace and sign, then a case-insensitive infinity/NaN spelling or a
decimal literal with optional underscores and exponent. (Unicode digit and
whitespace normalisation is not modelled; the script only meets ASCII.) -/
def pyFloatParses (s : String) : Bool :=
  let l := ((s.toList.dropWhile isPySpace).reverse.dropWhile isPySpace).reverse
  let l := stripSign l
  let low := l.map Char.toLower
  if low = "inf".toList || low = "infinity".toList || low = "nan".toList then true
  else
    match parseMantissa l with
    | none => false
    | some rest => parseExpTail rest

/-- `value.rstrip('%')`: remove every trailing `%`. -/
def rstripPercent (s : String) : String :=
  ⟨(s.toList.reverse.dropWhile (· = '%')).reverse⟩

/-- `value.startswith('Error:')`, computed on the character list so that it
reduces definitionally. -/
def startsWithError (v : String) : Bool :=
  "Error:".toList.isPrefixOf v.toList

/-- `is_valid_metric_value` (lines 95–113). -/
def is_valid_metric_value : MetricValue → Bool
  | .null => false
  | .nonText => false
  | .str v =>
    if v = "N/A" then false
    else if startsWithError v then false
    else pyFloatParses (rstripPercent v)

/-- The fixed required-metric set (`metric_fields`, lines 122–127). -/
def metric_fields : List String :=
  ["total_word_effort", "effort", "same_finger_bigrams", "skip_bigrams_1u",
   "skip_bigrams_2u", "lat_stretch_bigrams", "scissors", "pinky_off",
   "bigram_roll_in", "bigram_roll_out", "roll_in", "roll_out", "redirect",
   "weak_redirect", "alt", "alt_sfs"]

/-- `has_invalid_metrics` (lines 116–133): true on an empty bundle, or when
any required metric is missing or fails `is_valid_metric_value`. -/
def has_invalid_metrics (b : Bundle) : Bool :=
  if b = [] then true
  else metric_fields.any fun f =>
    match lookupA f b with
    | none => true
    | some v => ! is_valid_metric_value v

/-- The spec's `isValidBundle`: the oracle's bundle-level verdict, which the
code expresses negatively as `has_invalid_metrics`. -/
def isValidBundle (b : Bundle) : Bool := ! has_invalid_metrics b

/-- `needs_scraping(layout_data, mode, language, full_refresh)`
(lines 136–154). `metrics? = none` models `'metrics' not in layout_data`. -/
def needs_scraping (metrics? : Option ModeMap) (mode language : String)
    (full_refresh : Bool) : Bool :=
  if full_refresh then true
  else
    match metrics? with
    | none => true
    | some m =>
      match lookupA mode m with
      | none => true
      | some lm =>
        match lookupA language lm with
        | none => true
        | some b => has_invalid_metrics b

/-! ### Data model: layout definitions, layout records, the persisted file -/

/-- A layout definition loaded from one YAML file. `link = ""` models a
missing/empty `link` field (the script reads `layout.get('link', '')` and
tests truthiness). `none` in the optional fields models an absent (or
explicit-null) key. -/
structure LayoutDef where
  name : String
  link : String
  website : Option String
  year : Option String
  thumb : Option Bool
  family : Option String
deriving DecidableEq, Repr

/-- A persisted layout entry of `data.json`. Optional metadata fields are
`none` when the key is absent. -/
structure LayoutRecord where
  name : String
  url : String
  thumb : Option Bool
  website : Option String
  year : Option String
  family : Option String
  metrics : ModeMap
deriving DecidableEq, Repr

/-- One element of `scrape_tasks`: the `(layout_name, mode, language,
base_link)` tuple (line 539). -/
structure FetchTask where
  layout : String
  mode : String
  language : String
  link : String
deriving DecidableEq, Repr

/-- The persisted `data.json` document. `scraped_at` is `none` when the field
is absent; timestamps are abstracted to naturals. -/
structure DataFile where
  scraped_at : Option Nat
  modes : List String
  languages : List String
  layouts : List LayoutRecord
deriving DecidableEq, Repr

/-- The externally selected refresh scope: default (`only-invalid`),
`--full-refresh` (`force-all`) or `--layouts names` (`force-subset`). -/
inductive RefreshScope where
  | onlyInvalid
  | forceAll
  | forceSubset (names : List String)
deriving DecidableEq, Repr

/-- `full_refresh = args.full_refresh or bool(args.layouts)` (line 482). -/
def fullRefreshFlag : RefreshScope → Bool
  | .onlyInvalid => false
  | .forceAll => true
  | .forceSubset names => ! names.isEmpty

/-- `bool(args.layouts)`: whether the subset merge branch is taken
(lines 555, 618, 628). -/
def isSubsetRun : RefreshScope → Bool
  | .forceSubset names => ! names.isEmpty
  | _ => false

/-- `load_layouts(names=args.layouts)` (lines 44–72): with a non-empty subset
the named definitions are loaded in the order the names are given; otherwise
all definitions in directory order. (A subset name with no definition raises
in the script; here it is dropped — that branch is unreachable in the claims,
which only use names of existing definitions.) -/
def selectDefs (defs : List LayoutDef) : RefreshScope → List LayoutDef
  | .forceSubset names =>
    if names.isEmpty then defs
    else names.filterMap fun n => defs.find? fun d => d.name == n
  | _ => defs

/-- `existing_layouts[layout['name']] = layout` over the persisted list
(lines 492–495): a dict keyed by record name, later duplicates overwriting. -/
def dictOfRecords (l : List LayoutRecord) : List (String × LayoutRecord) :=
  dictUpdate [] (l.map fun r => (r.name, r))

/-! ### Task Planner (`main`, lines 497–539) -/

/-- The fresh `layout_data` entry built for one definition (lines 511–527):
url, thumb, optional website/year kept only when truthy, family defaulted to
`""`, metrics carried over from the existing record if any. -/
def buildEntry (d : LayoutDef) (existingRec : Option LayoutRecord) : LayoutRecord :=
  { name := d.name
    url := d.link
    thumb := some (d.thumb.getD false)
    website := if d.website.getD "" ≠ "" then d.website else none
    year := if d.year.getD "" ≠ "" then d.year else none
    family := some (d.family.getD "")
    metrics := (existingRec.map (·.metrics)).getD [] }

/-- The per-layout mode/language loop (lines 532–539): initialise each mode
key to `{}` when missing, then emit a task for every language that
`needs_scraping`. Returns the final metrics and the tasks in order. -/
def planModes (modes languages : List String) (name link : String)
    (metrics : ModeMap) (fr : Bool) : ModeMap × List FetchTask :=
  match modes with
  | [] => (metrics, [])
  | mode :: rest =>
    let metrics' := if (lookupA mode metrics).isSome then metrics else insertA mode [] metrics
    let ts := languages.filterMap fun lang =>
      if needs_scraping (some metrics') mode lang fr then
        some ⟨name, mode, lang, link⟩
      else none
    let rec' := planModes rest languages name link metrics' fr
    (rec'.1, ts ++ rec'.2)

/-- One step of the first pass over layouts (lines 501–539): skip definitions
with an empty link, otherwise record the entry (dict write) and append its
tasks. -/
def planStep (existingLayouts : List (String × LayoutRecord))
    (modes languages : List String) (fr : Bool)
    (acc : List (String × LayoutRecord) × List FetchTask) (d : LayoutDef) :
    List (String × LayoutRecord) × List FetchTask :=
  if d.link = "" then acc
  else
    let entry := buildEntry d (lookupA d.name existingLayouts)
    let pm := planModes modes languages d.name d.link entry.metrics fr
    (insertA d.name { entry with metrics := pm.1 } acc.1, acc.2 ++ pm.2)

/-- The whole first pass: `layout_entries` and `scrape_tasks`. -/
def planAll (sel : List LayoutDef) (existingLayouts : List (String × LayoutRecord))
    (modes languages : List String) (fr : Bool) :
    List (String × LayoutRecord) × List FetchTask :=
  List.foldl (planStep existingLayouts modes languages fr) ([], []) sel

/-- The planner as run by `main`: scope selection, full-refresh flag, then the
first pass; result is the ordered task list. -/
def runPlanTasks (defs : List LayoutDef) (modes languages : List String)
    (existing : DataFile) (scope : RefreshScope) : List FetchTask :=
  (planAll (selectDefs defs scope) (dictOfRecords existing.layouts)
    modes languages (fullRefreshFlag scope)).2

/-- The `layout_entries` dict as built by the planner pass. -/
def planEntries (defs : List LayoutDef) (modes languages : List String)
    (existing : DataFile) (scope : RefreshScope) : List (String × LayoutRecord) :=
  (planAll (selectDefs defs scope) (dictOfRecords existing.layouts)
    modes languages (fullRefreshFlag scope)).1

/-! ### Store Merger (lines 611–614) and fetch outcome (lines 342–364) -/

/-- The all-`None` bundle returned by `scrape_layout_stats` when the fetch
raises (lines 347–364). -/
def allNullStats : Bundle :=
  [("total_word_effort", .null), ("effort", .null), ("same_finger_bigrams", .null),
   ("skip_bigrams_1u", .null), ("skip_bigrams_2u", .null), ("lat_stretch_bigrams", .null),
   ("scissors", .null), ("pinky_off", .null), ("bigram_roll_in", .null),
   ("bigram_roll_out", .null), ("roll_in", .null), ("roll_out", .null),
   ("redirect", .null), ("weak_redirect", .null), ("alt", .null), ("alt_sfs", .null)]

/-- `scrape_layout_stats` at the interface the engine sees: the browser either
yields a stats dict, or the `except` branch yields the all-null bundle. -/
def scrapeOutcome (fetch : FetchTask → Option Bundle) (t : FetchTask) : Bundle :=
  match fetch t with
  | some stats => stats
  | none => allNullStats

/-- `stats.get('effort') is None` (line 608), the per-task error indicator. -/
def effortIsNone (stats : Bundle) : Bool :=
  match lookupA "effort" stats with
  | none => true
  | some .null => true
  | some _ => false

/-- `layout_entries[t.layout]['metrics'][t.mode][t.language] = stats` with the
mode dict created when missing (lines 611–614). A missing layout key would be
a `KeyError` in the script; it cannot occur in `main` (every task's layout has
an entry) and is modelled as a no-op. -/
def applyResult (entries : List (String × LayoutRecord)) (t : FetchTask)
    (stats : Bundle) : List (String × LayoutRecord) :=
  match lookupA t.layout entries with
  | none => entries
  | some r =>
    let m := if (lookupA t.mode r.metrics).isSome then r.metrics
             else insertA t.mode [] r.metrics
    let lm := (lookupA t.mode m).getD []
    let m := insertA t.mode (insertA t.language stats lm) m
    insertA t.layout { r with metrics := m } entries

/-- Reading one (layout, mode, language) slot out of the entries dict. -/
def slotRead (entries : List (String × LayoutRecord)) (layout mode lang : String) :
    Option Bundle :=
  (lookupA layout entries).bind fun r =>
    (lookupA mode r.metrics).bind fun lm => lookupA lang lm

/-! ### Persistence (`save_results`, lines 368–373) and the run skeleton
(`main`, lines 482–633) -/

/-- `save_results(results, output_file, update_timestamp)`: the document that
gets written; the timestamp is set only when `update_timestamp` is true. -/
def save_results (results : DataFile) (now : Nat) (update_timestamp : Bool) : DataFile :=
  if update_timestamp then { results with scraped_at := some now } else results

/-- `results['layouts']` as recomputed before each save (lines 554–564,
618–622, 628–632): under a subset run the existing store is loaded whole and
updated with the scraped entries; otherwise the scraped entries alone. -/
def resultsLayouts (subsetRun : Bool) (existing : DataFile)
    (entries : List (String × LayoutRecord)) : List LayoutRecord :=
  if subsetRun then (dictUpdate (dictOfRecords existing.layouts) entries).map Prod.snd
  else entries.map Prod.snd

/-- The scrape loop (lines 597–625): fetch, count errors, merge, checkpoint
(without timestamp) after every task. Returns final entries, error count and
the checkpoint writes in order. -/
def scrapeLoop (fetch : FetchTask → Option Bundle) (subsetRun : Bool)
    (existing : DataFile) (results0 : DataFile) :
    List FetchTask → List (String × LayoutRecord) → Nat → List DataFile →
    List (String × LayoutRecord) × Nat × List DataFile
  | [], entries, errors, writes => (entries, errors, writes)
  | t :: rest, entries, errors, writes =>
    let stats := scrapeOutcome fetch t
    let errors := if effortIsNone stats then errors + 1 else errors
    let entries := applyResult entries t stats
    let wfile := save_results
      { results0 with layouts := resultsLayouts subsetRun existing entries } 0 false
    scrapeLoop fetch subsetRun existing results0 rest entries errors (writes ++ [wfile])

/-- The scrape-and-persist phase of `main` (lines 482–633), after the metadata
sync and pre-run orphan check: plan, then — unless the plan is empty, in which
case nothing is written — checkpoint after each task and finish with a
timestamped save. Returns the sequence of file writes and the error count. -/
def mainScrapeRun (defs : List LayoutDef) (modes languages : List String)
    (existing : DataFile) (scope : RefreshScope) (fetch : FetchTask → Option Bundle)
    (planNow finalNow : Nat) : List DataFile × Nat :=
  let fr := fullRefreshFlag scope
  let sel := selectDefs defs scope
  let pa := planAll sel (dictOfRecords existing.layouts) modes languages fr
  let entries := pa.1
  let tasks := pa.2
  let subsetRun := isSubsetRun scope
  let results0 : DataFile :=
    { scraped_at := some (existing.scraped_at.getD planNow)
      modes := modes
      languages := languages
      layouts := resultsLayouts subsetRun existing entries }
  if tasks.isEmpty then ([], 0)
  else
    let lp := scrapeLoop fetch subsetRun existing results0 tasks entries 0 []
    let finalFile := save_results
      { results0 with layouts := resultsLayouts subsetRun existing lp.1 } finalNow true
    (lp.2.2 ++ [finalFile], lp.2.1)

/-! ### Metadata Reconciler (`update_metadata`, lines 376–427) -/

/-- Sync of one optional field (year, website; lines 414–421): a non-empty
definition value is written when different; a present-but-empty definition
value deletes the field; an absent definition value leaves the store as is.
Returns the new field and whether it changed. -/
def syncOptionalField (yv ev : Option String) : Option String × Bool :=
  match yv with
  | some y =>
    if y ≠ "" then (if ev ≠ some y then (some y, true) else (ev, false))
    else
      match ev with
      | some _ => (none, true)
      | none => (ev, false)
  | none => (ev, false)

/-- Sync of an always-present field with a default (thumb, family;
lines 407–411): the definition value (or default) overwrites when different. -/
def syncDefaultField {α : Type} [DecidableEq α] (newv : α) (ev : Option α) :
    Option α × Bool :=
  if ev ≠ some newv then (some newv, true) else (ev, false)

/-- The per-record field loop of `update_metadata` (lines 401–421), over the
fields year, website, thumb (default `False`), family (default `""`). -/
def syncEntry (yml : LayoutDef) (e : LayoutRecord) : LayoutRecord × Bool :=
  let sy := syncOptionalField yml.year e.year
  let sw := syncOptionalField yml.website e.website
  let st := syncDefaultField (yml.thumb.getD false) e.thumb
  let sf := syncDefaultField (yml.family.getD "") e.family
  ({ e with year := sy.1, website := sw.1, thumb := st.1, family := sf.1 },
   sy.2 || sw.2 || st.2 || sf.2)

/-- One iteration of the `update_metadata` record loop (lines 395–424):
records whose name has no definition are skipped, the rest are synced. -/
def metaStep (ymlLookup : List (String × LayoutDef)) (e : LayoutRecord) :
    LayoutRecord × Bool :=
  match lookupA e.name ymlLookup with
  | none => (e, false)
  | some yml => syncEntry yml e

/-- `update_metadata` over the persisted layout list (lines 388–424): returns
the new list and the count of changed records. -/
def update_metadata_pass (defs : List LayoutDef) (store : List LayoutRecord) :
    List LayoutRecord × Nat :=
  let ymlLookup := dictUpdate [] (defs.map fun d => (d.name, d))
  let processed := store.map (metaStep ymlLookup)
  (processed.map Prod.fst, (processed.filter (·.2)).length)

/-- The file `update_metadata` persists (line 426): the synced layouts, saved
with `update_timestamp=False`. -/
def update_metadata_save (defs : List LayoutDef) (file : DataFile) (now : Nat) : DataFile :=
  save_results { file with layouts := (update_metadata_pass defs file.layouts).1 } now false

/-! ### Orphan Auditor (`check_orphaned_layouts`, lines 430–463) -/

/-- What the audit produces: a process exit code (0 success, 1 fatal), the
orphaned names enumerated in the failure listing, and the persisted store
after the audit (the function never writes the store, so it passes through). -/
structure AuditOutcome where
  exitCode : Nat
  listed : List String
  store : List LayoutRecord
deriving DecidableEq, Repr

/-- The orphan set, in store order: names of persisted records with no
matching definition name (lines 443–455). -/
def orphanNames (defs : List LayoutDef) (store : List LayoutRecord) : List String :=
  (store.map (·.name)).filter fun n =>
    (lookupA n (dictUpdate [] (defs.map fun d => (d.name, d.name)))).isNone

/-- `check_orphaned_layouts`: `SystemExit(1)` listing every orphan when the
orphan set is non-empty, success otherwise; the store is never modified. -/
def check_orphaned_layouts (defs : List LayoutDef) (store : List LayoutRecord) :
    AuditOutcome :=
  let orphaned := orphanNames defs store
  if orphaned.isEmpty then ⟨0, [], store⟩ else ⟨1, orphaned, store⟩

/-! ### Derived notions used in the claim statements -/

/-- The store-side staleness test at one slot, as `needs_scraping` performs it
on a metrics dict. -/
def slotNeeds (m : ModeMap) (mode lang : String) : Bool :=
  match lookupA mode m with
  | none => true
  | some lm =>
    match lookupA lang lm with
    | none => true
    | some b => has_invalid_metrics b

/-- The record the planner consults for a layout name: the dict over the
persisted list, keyed by name. -/
def storeRecord (existing : DataFile) (name : String) : Option LayoutRecord :=
  lookupA name (dictOfRecords existing.layouts)

/-- The metrics the planner starts from for a layout (line 519). -/
def storeMetrics (existing : DataFile) (name : String) : ModeMap :=
  ((storeRecord existing name).map (·.metrics)).getD []

/-- The refresh scope forces a layout: force-all, or force-subset containing
its id. -/
def slotForced (scope : RefreshScope) (name : String) : Prop :=
  scope = .forceAll ∨ ∃ ns, scope = .forceSubset ns ∧ name ∈ ns

/-- The claim's store-side inclusion condition for a (layout, mode, language)
triple: no record for the layout, or no bundle for the mode, or none for the
(mode, language) pair, or an invalid existing bundle. -/
def slotStaleInStore (existing : DataFile) (name mode lang : String) : Prop :=
  storeRecord existing name = none
  ∨ ∃ r, storeRecord existing name = some r ∧
      (lookupA mode r.metrics = none
       ∨ ∃ lm, lookupA mode r.metrics = some lm ∧
          (lookupA lang lm = none
           ∨ ∃ b, lookupA lang lm = some b ∧ isValidBundle b = false))

/-- A slot that is present in the store and valid per the oracle. -/
def slotPresentValid (existing : DataFile) (name mode lang : String) : Bool :=
  match slotRead (dictOfRecords existing.layouts) name mode lang with
  | some b => isValidBundle b
  | none => false

/-- The tasks one definition contributes (the per-layout part of the first
pass). -/
def layoutTasks (existingLayouts : List (String × LayoutRecord))
    (modes languages : List String) (fr : Bool) (d : LayoutDef) : List FetchTask :=
  if d.link = "" then []
  else (planModes modes languages d.name d.link
    (buildEntry d (lookupA d.name existingLayouts)).metrics fr).2

/-- Folding all fetch results into the entries dict, in task order. -/
def mergeAll (fetch : FetchTask → Option Bundle) (tasks : List FetchTask)
    (entries : List (String × LayoutRecord)) : List (String × LayoutRecord) :=
  List.foldl (fun en t => applyResult en t (scrapeOutcome fetch t)) entries tasks

/-! ### Claim C5's reading of the value predicate, for comparison with the
code's `is_valid_metric_value` -/

/-- Strip at most one trailing percent sign — the claim's "optional trailing
percent sign". -/
def stripOnePercent (s : String) : String :=
  match s.toList.reverse with
  | '%' :: rest => ⟨rest.reverse⟩
  | _ => s

/-- "Parses as a finite real number": the float literal grammar without the
infinity/NaN spellings (those do not denote finite reals). -/
def parsesFiniteRealNumber (s : String) : Bool :=
  let l := ((s.toList.dropWhile isPySpace).reverse.dropWhile isPySpace).reverse
  let l := stripSign l
  match parseMantissa l with
  | none => false
  | some rest => parseExpTail rest

/-- The validity predicate exactly as claim C5 words it. -/
def isValidValueClaim : MetricValue → Bool
  | .null => false
  | .nonText => false
  | .str v =>
    if v = "N/A" then false
    else if startsWithError v then false
    else parsesFiniteRealNumber (stripOnePercent v)

/-- The amended reading of C5: every trailing percent sign is stripped, and
the remainder must parse under the language's float parser, which also
accepts infinity and NaN spellings. -/
def isValidValueAmended : MetricValue → Bool
  | .null => false
  | .nonText => false
  | .str v =>
    if v = "N/A" then false
    else if startsWithError v then false
    else pyFloatParses (rstripPercent v)

/-! ### Concrete fixtures for the witnesses -/

/-- A bundle holding every required metric with a valid value. -/
def sampleValidBundle : Bundle := metric_fields.map fun f => (f, .str "1.00")

/-- A definition for layout `alpha`. -/
def defAlpha : LayoutDef := ⟨"alpha", "https://x", none, none, none, none⟩

/-- A persisted record for `alpha` with one fully valid slot. -/
def recAlphaValid : LayoutRecord :=
  ⟨"alpha", "https://x", some false, none, none, some "",
   [("ergo", [("english", sampleValidBundle)])]⟩

/-- A persisted file holding just `alpha`. -/
def fileAlpha : DataFile := ⟨some 5, ["ergo"], ["english"], [recAlphaValid]⟩

/-- A persisted record with no matching definition. -/
def recGhost : LayoutRecord := ⟨"ghost", "u", none, none, none, none, []⟩

/-- A definition for layout `c` that omits the website field entirely. -/
def defCNoWebsite : LayoutDef := ⟨"c", "u", none, none, none, none⟩

/-- A definition for layout `c` with an explicitly empty website field. -/
def defCEmptyWebsite : LayoutDef := ⟨"c", "u", some "", none, none, none⟩

/-- A persisted record for `c` that currently holds a website. -/
def recCWebsite : LayoutRecord := ⟨"c", "u", some false, some "http://x", none, some "", []⟩

example : is_valid_metric_value .null = false := by decide
example : is_valid_metric_value (.str "N/A") = false := by decide
example : is_valid_metric_value (.str "Error: timeout") = false := by decide
example : is_valid_metric_value (.str "abc") = false := by decide
example : is_valid_metric_value (.str "12.34%") = true := by decide
example : is_valid_metric_value (.str "1258.15") = true := by decide
example : is_valid_metric_value (.str "0") = true := by decide
example : is_valid_metric_value (.str "inf") = true := by decide
example : is_valid_metric_value (.str "nan") = true := by decide
example : is_valid_metric_value (.str "12%%") = true := by decide
example : is_valid_metric_value (.str "1e5") = true := by decide
example : is_valid_metric_value (.str "1_0") = true := by decide
example : is_valid_metric_value (.str "1_") = false := by decide
example : is_valid_metric_value (.str ".") = false := by decide
example : is_valid_metric_value (.str "1.") = true := by decide
example : is_valid_metric_value (.str "") = false := by decide

/-! ### Association-list lemmas -/

@[simp] theorem keysA_nil {α : Type} : keysA ([] : List (String × α)) = [] := rfl

@[simp] theorem keysA_cons {α : Type} (k : String) (v : α) (m : List (String × α)) :
    keysA ((k, v) :: m) = k :: keysA m := rfl

@[simp] theorem keysA_append {α : Type} (a b : List (String × α)) :
    keysA (a ++ b) = keysA a ++ keysA b := by
  simp [keysA]

@[simp] theorem dictUpdate_nil {α : Type} (dst : List (String × α)) :
    dictUpdate dst [] = dst := rfl

@[simp] theorem dictUpdate_cons {α : Type} (dst : List (String × α)) (k : String)
    (v : α) (rest : List (String × α)) :
    dictUpdate dst ((k, v) :: rest) = dictUpdate (insertA k v dst) rest := rfl

@[simp] theorem lookupA_insertA_self {α : Type} (k : String) (v : α)
    (m : List (String × α)) : lookupA k (insertA k v m) = some v := by
  induction m with
  | nil => simp [insertA, lookupA]
  | cons kv rest ih =>
    obtain ⟨k', v'⟩ := kv
    by_cases h : k' = k
    · simp [insertA, lookupA, h]
    · simp [insertA, lookupA, h, ih]

theorem lookupA_insertA_ne {α : Type} {k k' : String} (h : k' ≠ k) (v : α)
    (m : List (String × α)) : lookupA k (insertA k' v m) = lookupA k m := by
  induction m with
  | nil => simp [insertA, lookupA, h]
  | cons kv rest ih =>
    obtain ⟨k'', v''⟩ := kv
    by_cases h2 : k'' = k'
    · subst h2
      simp [insertA, lookupA, h]
    · by_cases h3 : k'' = k
      · simp [insertA, lookupA, h2, h3, Ne.symm h]
      · simp [insertA, lookupA, h2, h3, ih]

theorem lookupA_eq_none_iff {α : Type} (k : String) (m : List (String × α)) :
    lookupA k m = none ↔ k ∉ keysA m := by
  induction m with
  | nil => simp [lookupA]
  | cons kv rest ih =>
    obtain ⟨k', v'⟩ := kv
    by_cases h : k' = k
    · subst h
      simp [lookupA]
    · simp [lookupA, h, ih, Ne.symm h]

theorem lookupA_mem {α : Type} {k : String} {v : α} {m : List (String × α)}
    (h : lookupA k m = some v) : (k, v) ∈ m := by
  induction m with
  | nil => simp [lookupA] at h
  | cons kv rest ih =>
    obtain ⟨k', v'⟩ := kv
    by_cases h2 : k' = k
    · subst h2
      simp [lookupA] at h
      simp [h]
    · simp [lookupA, h2] at h
      exact List.mem_cons_of_mem _ (ih h)

theorem mem_snd_of_lookupA {α : Type} {k : String} {v : α} {m : List (String × α)}
    (h : lookupA k m = some v) : v ∈ m.map Prod.snd :=
  List.mem_map.mpr ⟨(k, v), lookupA_mem h, rfl⟩

theorem mem_keysA_of_lookupA {α : Type} {k : String} {v : α} {m : List (String × α)}
    (h : lookupA k m = some v) : k ∈ keysA m := by
  by_contra hc
  rw [← lookupA_eq_none_iff] at hc
  rw [h] at hc
  exact Option.noConfusion hc

theorem mem_insertA_sub {α : Type} {kv : String × α} {k : String} {v : α}
    {m : List (String × α)} (h : kv ∈ insertA k v m) : kv ∈ m ∨ kv = (k, v) := by
  induction m with
  | nil =>
    simp [insertA] at h
    simp [h]
  | cons kv' rest ih =>
    obtain ⟨k', v'⟩ := kv'
    by_cases h2 : k' = k
    · subst h2
      simp [insertA] at h
      rcases h with h | h
      · right; simp [h]
      · left; exact List.mem_cons_of_mem _ h
    · simp [insertA, h2] at h
      rcases h with h | h
      · left; simp [h]
      · rcases ih h with h3 | h3
        · left; exact List.mem_cons_of_mem _ h3
        · right; exact h3

theorem mem_keysA_insertA {α : Type} (k' k : String) (v : α) (m : List (String × α)) :
    k' ∈ keysA (insertA k v m) ↔ k' ∈ keysA m ∨ k' = k := by
  induction m with
  | nil => simp [insertA]
  | cons kv rest ih =>
    obtain ⟨k'', v''⟩ := kv
    by_cases h2 : k'' = k
    · subst h2
      simp [insertA, List.mem_cons]
      tauto
    · simp only [insertA, if_neg h2, keysA_cons, List.mem_cons, ih]
      tauto

theorem keysA_insertA_of_mem {α : Type} {k : String} {m : List (String × α)}
    (h : k ∈ keysA m) (v : α) : keysA (insertA k v m) = keysA m := by
  induction m with
  | nil => simp at h
  | cons kv rest ih =>
    obtain ⟨k', v'⟩ := kv
    by_cases h2 : k' = k
    · subst h2
      simp [insertA]
    · rw [keysA_cons] at h
      rcases List.mem_cons.mp h with h3 | h3
      · exact absurd h3.symm h2
      · simp [insertA, h2, ih h3]

theorem insertA_fresh {α : Type} {k : String} {m : List (String × α)}
    (h : k ∉ keysA m) (v : α) : insertA k v m = m ++ [(k, v)] := by
  induction m with
  | nil => simp [insertA]
  | cons kv rest ih =>
    obtain ⟨k', v'⟩ := kv
    rw [keysA_cons] at h
    have h1 : k' ≠ k := by
      rintro rfl
      exact h (List.mem_cons_self _ _)
    have h2 : k ∉ keysA rest := fun hh => h (List.mem_cons_of_mem _ hh)
    simp [insertA, h1, ih h2]

theorem lookupA_dictUpdate_not_mem {α : Type} {src : List (String × α)} {k : String}
    (h : ∀ kv ∈ src, kv.1 ≠ k) (dst : List (String × α)) :
    lookupA k (dictUpdate dst src) = lookupA k dst := by
  induction src generalizing dst with
  | nil => simp
  | cons kv rest ih =>
    obtain ⟨k', v'⟩ := kv
    rw [dictUpdate_cons, ih (fun kv h2 => h kv (List.mem_cons_of_mem _ h2)),
      lookupA_insertA_ne (h (k', v') (List.mem_cons_self _ _))]

theorem mem_keysA_dictUpdate {α : Type} (k : String) (src dst : List (String × α)) :
    k ∈ keysA (dictUpdate dst src) ↔ k ∈ keysA dst ∨ k ∈ keysA src := by
  induction src generalizing dst with
  | nil => simp
  | cons kv rest ih =>
    obtain ⟨k', v'⟩ := kv
    rw [dictUpdate_cons, ih, mem_keysA_insertA, keysA_cons, List.mem_cons]
    tauto

theorem dictUpdate_fresh_append {α : Type} {src : List (String × α)}
    (hd : (keysA src).Nodup) {dst : List (String × α)}
    (h : ∀ k ∈ keysA src, k ∉ keysA dst) : dictUpdate dst src = dst ++ src := by
  induction src generalizing dst with
  | nil => simp
  | cons kv rest ih =>
    obtain ⟨k', v'⟩ := kv
    rw [keysA_cons, List.nodup_cons] at hd
    have hfresh : ∀ x ∈ keysA rest, x ∉ keysA (dst ++ [(k', v')]) := by
      intro x hx
      rw [keysA_append]
      simp only [List.mem_append]
      rintro (hmem | hmem)
      · exact h x (by rw [keysA_cons]; exact List.mem_cons_of_mem _ hx) hmem
      · have hx' : x = k' := by simpa [keysA] using hmem
        exact hd.1 (hx' ▸ hx)
    rw [dictUpdate_cons,
      insertA_fresh (h k' (by rw [keysA_cons]; exact List.mem_cons_self _ _)) v',
      ih hd.2 hfresh]
    simp

theorem dictOfRecords_eq_map {l : List LayoutRecord}
    (h : (l.map (·.name)).Nodup) :
    dictOfRecords l = l.map fun r => (r.name, r) := by
  have hk : keysA (l.map fun r => (r.name, r)) = l.map (·.name) := by
    simp [keysA, List.map_map]
  rw [dictOfRecords, dictUpdate_fresh_append (by rw [hk]; exact h) (by simp)]
  simp

theorem lookupA_map_records {l : List LayoutRecord} {r : LayoutRecord}
    (h : (l.map (·.name)).Nodup) (hr : r ∈ l) :
    lookupA r.name (l.map fun r => (r.name, r)) = some r := by
  induction l with
  | nil => simp at hr
  | cons r0 rest ih =>
    simp only [List.map_cons, List.nodup_cons] at h
    rcases List.mem_cons.mp hr with hr | hr
    · subst hr
      simp [lookupA]
    · have hne : r0.name ≠ r.name := by
        intro he
        exact h.1 (he ▸ List.mem_map.mpr ⟨r, hr, rfl⟩)
      simp only [List.map_cons, lookupA, if_neg hne]
      exact ih h.2 hr

theorem lookupA_dictOfRecords_self {l : List LayoutRecord} {r : LayoutRecord}
    (h : (l.map (·.name)).Nodup) (hr : r ∈ l) :
    lookupA r.name (dictOfRecords l) = some r := by
  rw [dictOfRecords_eq_map h]
  exact lookupA_map_records h hr

/-! ### Planner lemmas -/

theorem needs_scraping_some (m : ModeMap) (mode lang : String) (fr : Bool) :
    needs_scraping (some m) mode lang fr = (fr || slotNeeds m mode lang) := by
  cases fr <;> simp [needs_scraping, slotNeeds]

theorem slotNeeds_insert_missing {m : ModeMap} {mode' : String}
    (h : lookupA mode' m = none) (mode lang : String) :
    slotNeeds (insertA mode' [] m) mode lang = slotNeeds m mode lang := by
  by_cases h2 : mode' = mode
  · subst h2
    rw [slotNeeds, slotNeeds, h, lookupA_insertA_self]
    simp [lookupA]
  · rw [slotNeeds, slotNeeds, lookupA_insertA_ne h2]

theorem slotNeeds_initMode (m : ModeMap) (mode' mode lang : String) :
    slotNeeds (if (lookupA mode' m).isSome then m else insertA mode' [] m) mode lang
      = slotNeeds m mode lang := by
  by_cases h : (lookupA mode' m).isSome
  · rw [if_pos h]
  · rw [if_neg h]
    exact slotNeeds_insert_missing (Option.not_isSome_iff_eq_none.mp h) mode lang

theorem mem_planModes {langs : List String} {n l : String} {fr : Bool} {t : FetchTask} :
    ∀ (modes : List String) (m : ModeMap),
      t ∈ (planModes modes langs n l m fr).2 ↔
        ∃ mode, mode ∈ modes ∧ ∃ lang, lang ∈ langs ∧
          t = ⟨n, mode, lang, l⟩ ∧ (fr || slotNeeds m mode lang) = true := by
  intro modes
  induction modes with
  | nil => simp [planModes]
  | cons mode rest ih =>
    intro m
    rw [planModes]
    simp only [List.mem_append, List.mem_filterMap, List.mem_cons]
    constructor
    · rintro (⟨lang, hlang, hsome⟩ | hrest)
      · refine ⟨mode, Or.inl rfl, lang, hlang, ?_⟩
        by_cases hn : needs_scraping (some (if (lookupA mode m).isSome then m
            else insertA mode [] m)) mode lang fr = true
        · rw [if_pos hn] at hsome
          refine ⟨(Option.some.injEq _ _ ▸ hsome).symm, ?_⟩
          rw [needs_scraping_some, slotNeeds_initMode] at hn
          exact hn
        · rw [if_neg hn] at hsome
          exact Option.noConfusion hsome
      · rcases (ih _).mp hrest with ⟨mode', hmode', lang, hlang, ht, hcond⟩
        rw [slotNeeds_initMode] at hcond
        exact ⟨mode', Or.inr hmode', lang, hlang, ht, hcond⟩
    · rintro ⟨mode', hmode', lang, hlang, ht, hcond⟩
      rcases hmode' with hmode' | hmode'
      · subst hmode'
        left
        refine ⟨lang, hlang, ?_⟩
        have hn : needs_scraping (some (if (lookupA mode' m).isSome then m
            else insertA mode' [] m)) mode' lang fr = true := by
          rw [needs_scraping_some, slotNeeds_initMode]
          exact hcond
        rw [if_pos hn, ht]
      · right
        refine (ih _).mpr ⟨mode', hmode', lang, hlang, ht, ?_⟩
        rw [slotNeeds_initMode]
        exact hcond

theorem planAll_go_snd (ex : List (String × LayoutRecord)) (modes langs : List String)
    (fr : Bool) :
    ∀ (sel : List LayoutDef) (acc : List (String × LayoutRecord) × List FetchTask),
      (List.foldl (planStep ex modes langs fr) acc sel).2
        = acc.2 ++ sel.flatMap (layoutTasks ex modes langs fr) := by
  intro sel
  induction sel with
  | nil => simp
  | cons d rest ih =>
    intro acc
    rw [List.foldl_cons, ih]
    by_cases h : d.link = ""
    · simp [planStep, layoutTasks, h]
    · simp only [planStep, if_neg h, layoutTasks, List.flatMap_cons, List.append_assoc]

theorem planAll_snd (sel : List LayoutDef) (ex : List (String × LayoutRecord))
    (modes langs : List String) (fr : Bool) :
    (planAll sel ex modes langs fr).2 = sel.flatMap (layoutTasks ex modes langs fr) := by
  rw [planAll, planAll_go_snd]
  simp

theorem planAll_go_fst_lookup (ex : List (String × LayoutRecord))
    (modes langs : List String) (fr : Bool) {n : String} :
    ∀ (sel : List LayoutDef) (acc : List (String × LayoutRecord) × List FetchTask),
      (∀ d ∈ sel, d.name = n → d.link = "") →
      lookupA n (List.foldl (planStep ex modes langs fr) acc sel).1 = lookupA n acc.1 := by
  intro sel
  induction sel with
  | nil => simp
  | cons d rest ih =>
    intro acc h
    rw [List.foldl_cons, ih _ (fun d' hd' => h d' (List.mem_cons_of_mem _ hd'))]
    by_cases hl : d.link = ""
    · simp [planStep, hl]
    · have hne : d.name ≠ n := fun he => hl (h d (List.mem_cons_self _ _) he)
      simp only [planStep, if_neg hl]
      exact lookupA_insertA_ne hne _ _

theorem planAll_go_keys (ex : List (String × LayoutRecord)) (modes langs : List String)
    (fr : Bool) :
    ∀ (sel : List LayoutDef) (acc : List (String × LayoutRecord) × List FetchTask)
      (k : String), k ∈ keysA (List.foldl (planStep ex modes langs fr) acc sel).1 →
      k ∈ keysA acc.1 ∨ k ∈ sel.map (·.name) := by
  intro sel
  induction sel with
  | nil => simp
  | cons d rest ih =>
    intro acc k hk
    rcases ih _ k hk with h | h
    · by_cases hl : d.link = ""
      · rw [planStep, if_pos hl] at h
        exact Or.inl h
      · rw [planStep, if_neg hl] at h
        rcases (mem_keysA_insertA _ _ _ _).mp h with h2 | h2
        · exact Or.inl h2
        · exact Or.inr (by simp [h2])
    · exact Or.inr (List.mem_cons_of_mem _ h)

theorem planAll_go_names_inv (ex : List (String × LayoutRecord))
    (modes langs : List String) (fr : Bool) :
    ∀ (sel : List LayoutDef) (acc : List (String × LayoutRecord) × List FetchTask),
      (∀ kv ∈ acc.1, kv.2.name = kv.1) →
      ∀ kv ∈ (List.foldl (planStep ex modes langs fr) acc sel).1, kv.2.name = kv.1 := by
  intro sel
  induction sel with
  | nil => intro acc h; exact h
  | cons d rest ih =>
    intro acc h
    refine ih _ ?_
    intro kv hkv
    by_cases hl : d.link = ""
    · rw [planStep, if_pos hl] at hkv
      exact h kv hkv
    · rw [planStep, if_neg hl] at hkv
      rcases mem_insertA_sub hkv with h2 | h2
      · exact h kv h2
      · rw [h2]
        rfl

/-! ### Scope lemmas -/

theorem mem_selectDefs_subset {defs : List LayoutDef} {ns : List String}
    {d : LayoutDef} (hns : ns ≠ []) (hd : d ∈ selectDefs defs (.forceSubset ns)) :
    d.name ∈ ns := by
  rw [selectDefs, if_neg (by simpa using hns)] at hd
  rcases List.mem_filterMap.mp hd with ⟨n, hn, hfind⟩
  have := List.find?_some hfind
  rw [beq_iff_eq] at this
  rw [this]
  exact hn

theorem slotForced_iff_flag {defs : List LayoutDef} {scope : RefreshScope}
    {d : LayoutDef} (hd : d ∈ selectDefs defs scope) :
    slotForced scope d.name ↔ fullRefreshFlag scope = true := by
  cases scope with
  | onlyInvalid =>
    simp [slotForced, fullRefreshFlag]
  | forceAll =>
    simp [slotForced, fullRefreshFlag]
  | forceSubset ns =>
    by_cases hns : ns = []
    · subst hns
      simp [slotForced, fullRefreshFlag]
    · simp only [slotForced, fullRefreshFlag]
      constructor
      · intro _
        simpa using hns
      · intro _
        exact Or.inr ⟨ns, rfl, mem_selectDefs_subset hns hd⟩

theorem slotStale_iff_slotNeeds (existing : DataFile) (name mode lang : String) :
    slotStaleInStore existing name mode lang ↔
      slotNeeds (storeMetrics existing name) mode lang = true := by
  rw [slotStaleInStore, storeMetrics]
  cases hrec : storeRecord existing name with
  | none =>
    simp [slotNeeds, lookupA]
  | some r =>
    simp only [Option.map_some', Option.getD_some]
    rw [slotNeeds]
    cases hm : lookupA mode r.metrics with
    | none => simp [hrec, hm]
    | some lm =>
      cases hl : lookupA lang lm with
      | none => simp [hrec, hm, hl]
      | some b =>
        simp only [hrec, hm, hl]
        unfold isValidBundle
        constructor
        · rintro (h | ⟨r', hr', (h | ⟨lm', hlm', (h | ⟨b', hb', hP⟩)⟩)⟩)
          · exact Option.noConfusion h
          · rw [Option.some.injEq] at hr'
            subst hr'
            rw [hm] at h
            exact Option.noConfusion h
          · rw [Option.some.injEq] at hr'
            subst hr'
            rw [hm, Option.some.injEq] at hlm'
            subst hlm'
            rw [hl] at h
            exact Option.noConfusion h
          · rw [Option.some.injEq] at hr'
            subst hr'
            rw [hm, Option.some.injEq] at hlm'
            subst hlm'
            rw [hl, Option.some.injEq] at hb'
            subst hb'
            simpa using hP
        · intro h
          exact Or.inr ⟨r, rfl, Or.inr ⟨lm, hm, Or.inr ⟨b, hl, by simp [h]⟩⟩⟩

theorem slotPresentValid_not_stale {existing : DataFile} {name mode lang : String}
    (h : slotPresentValid existing name mode lang = true) :
    slotNeeds (storeMetrics existing name) mode lang = false := by
  rw [slotPresentValid, slotRead] at h
  rw [storeMetrics, storeRecord]
  cases hrec : lookupA name (dictOfRecords existing.layouts) with
  | none => rw [hrec] at h; simp at h
  | some r =>
    rw [hrec] at h
    simp only [Option.some_bind] at h
    cases hm : lookupA mode r.metrics with
    | none => rw [hm] at h; simp at h
    | some lm =>
      rw [hm] at h
      simp only [Option.some_bind] at h
      cases hl : lookupA lang lm with
      | none => rw [hl] at h; simp at h
      | some b =>
        rw [hl] at h
        have h2 : isValidBundle b = true := h
        simp only [Option.map_some', Option.getD_some]
        rw [slotNeeds, hm]
        show (match lookupA lang lm with
          | none => true
          | some b => has_invalid_metrics b) = false
        rw [hl]
        show has_invalid_metrics b = false
        unfold isValidBundle at h2
        simpa using h2

/-! ### Merger lemmas -/

theorem applyResult_of_lookup_none {entries : List (String × LayoutRecord)}
    {t : FetchTask} (h : lookupA t.layout entries = none) (stats : Bundle) :
    applyResult entries t stats = entries := by
  rw [applyResult, h]

theorem applyResult_lookup_ne {entries : List (String × LayoutRecord)}
    {t : FetchTask} {n : String} (h : n ≠ t.layout) (stats : Bundle) :
    lookupA n (applyResult entries t stats) = lookupA n entries := by
  rw [applyResult]
  cases hr : lookupA t.layout entries with
  | none => rfl
  | some r => exact lookupA_insertA_ne (Ne.symm h) _ _

theorem applyResult_keysA (entries : List (String × LayoutRecord)) (t : FetchTask)
    (stats : Bundle) : keysA (applyResult entries t stats) = keysA entries := by
  rw [applyResult]
  cases hr : lookupA t.layout entries with
  | none => rfl
  | some r => exact keysA_insertA_of_mem (mem_keysA_of_lookupA hr) _

theorem applyResult_names_inv {entries : List (String × LayoutRecord)} {t : FetchTask}
    {stats : Bundle} (h : ∀ kv ∈ entries, kv.2.name = kv.1) :
    ∀ kv ∈ applyResult entries t stats, kv.2.name = kv.1 := by
  intro kv hkv
  rw [applyResult] at hkv
  cases hr : lookupA t.layout entries with
  | none =>
    rw [hr] at hkv
    exact h kv hkv
  | some r =>
    rw [hr] at hkv
    rcases mem_insertA_sub hkv with h2 | h2
    · exact h kv h2
    · rw [h2]
      exact h (t.layout, r) (lookupA_mem hr)

theorem applyResult_slot_self {entries : List (String × LayoutRecord)} {t : FetchTask}
    {r : LayoutRecord} (h : lookupA t.layout entries = some r) (stats : Bundle) :
    slotRead (applyResult entries t stats) t.layout t.mode t.language = some stats := by
  rw [slotRead, applyResult, h]
  simp only [lookupA_insertA_self, Option.some_bind]

theorem applyResult_slot_frame (entries : List (String × LayoutRecord)) (t : FetchTask)
    (stats : Bundle) (n mode lang : String)
    (hne : ¬(n = t.layout ∧ mode = t.mode ∧ lang = t.language)) :
    slotRead (applyResult entries t stats) n mode lang = slotRead entries n mode lang := by
  by_cases h1 : n = t.layout
  · subst h1
    cases hr : lookupA t.layout entries with
    | none => rw [applyResult_of_lookup_none hr]
    | some r =>
      rw [slotRead, slotRead, applyResult, hr, lookupA_insertA_self]
      simp only [Option.some_bind]
      by_cases h2 : mode = t.mode
      · subst h2
        have h3 : lang ≠ t.language := fun he => hne ⟨rfl, rfl, he⟩
        rw [lookupA_insertA_self, Option.some_bind]
        cases hm : lookupA t.mode r.metrics with
        | none =>
          simp [hm, lookupA_insertA_ne (Ne.symm h3), lookupA]
        | some lm =>
          simp [hm, lookupA_insertA_ne (Ne.symm h3)]
      · rw [lookupA_insertA_ne (fun he => h2 he.symm)]
        by_cases hm : (lookupA t.mode r.metrics).isSome
        · rw [if_pos hm]
        · rw [if_neg hm, lookupA_insertA_ne (fun he => h2 he.symm)]
  · rw [slotRead, slotRead, applyResult_lookup_ne h1]

/-! ### Scrape-loop lemmas -/

theorem mergeAll_nil (f : FetchTask → Option Bundle)
    (entries : List (String × LayoutRecord)) : mergeAll f [] entries = entries := rfl

theorem mergeAll_cons (f : FetchTask → Option Bundle) (t : FetchTask)
    (rest : List FetchTask) (entries : List (String × LayoutRecord)) :
    mergeAll f (t :: rest) entries
      = mergeAll f rest (applyResult entries t (scrapeOutcome f t)) := rfl

theorem mergeAll_lookup_ne {f : FetchTask → Option Bundle} {n : String} :
    ∀ {tasks : List FetchTask}, (∀ t ∈ tasks, t.layout ≠ n) →
      ∀ (entries : List (String × LayoutRecord)),
      lookupA n (mergeAll f tasks entries) = lookupA n entries := by
  intro tasks
  induction tasks with
  | nil => intro _ entries; rfl
  | cons t rest ih =>
    intro h entries
    rw [mergeAll_cons, ih (fun t' ht' => h t' (List.mem_cons_of_mem _ ht')),
      applyResult_lookup_ne (fun he => h t (List.mem_cons_self _ _) he.symm)]

theorem mergeAll_keysA (f : FetchTask → Option Bundle) :
    ∀ (tasks : List FetchTask) (entries : List (String × LayoutRecord)),
      keysA (mergeAll f tasks entries) = keysA entries := by
  intro tasks
  induction tasks with
  | nil => intro entries; rfl
  | cons t rest ih =>
    intro entries
    rw [mergeAll_cons, ih, applyResult_keysA]

theorem mergeAll_names_inv {f : FetchTask → Option Bundle} :
    ∀ {tasks : List FetchTask} {entries : List (String × LayoutRecord)},
      (∀ kv ∈ entries, kv.2.name = kv.1) →
      ∀ kv ∈ mergeAll f tasks entries, kv.2.name = kv.1 := by
  intro tasks
  induction tasks with
  | nil => intro entries h; exact h
  | cons t rest ih =>
    intro entries h
    rw [mergeAll_cons]
    exact ih (applyResult_names_inv h)

theorem scrapeLoop_fst (f : FetchTask → Option Bundle) (s : Bool) (ex : DataFile)
    (r0 : DataFile) :
    ∀ (tasks : List FetchTask) (entries : List (String × LayoutRecord))
      (errors : Nat) (writes : List DataFile),
      (scrapeLoop f s ex r0 tasks entries errors writes).1 = mergeAll f tasks entries := by
  intro tasks
  induction tasks with
  | nil => intro entries errors writes; rfl
  | cons t rest ih =>
    intro entries errors writes
    rw [scrapeLoop, mergeAll_cons]
    exact ih _ _ _

theorem scrapeLoop_errors (f : FetchTask → Option Bundle) (s : Bool) (ex : DataFile)
    (r0 : DataFile) :
    ∀ (tasks : List FetchTask) (entries : List (String × LayoutRecord))
      (errors : Nat) (writes : List DataFile),
      (scrapeLoop f s ex r0 tasks entries errors writes).2.1
        = errors + (tasks.filter fun t => effortIsNone (scrapeOutcome f t)).length := by
  intro tasks
  induction tasks with
  | nil => intro entries errors writes; simp [scrapeLoop]
  | cons t rest ih =>
    intro entries errors writes
    rw [scrapeLoop]
    by_cases he : effortIsNone (scrapeOutcome f t)
    · simp only [if_pos he, ih, List.filter_cons, he]
      try simp [Nat.add_comm, Nat.add_assoc, Nat.add_left_comm]
      try omega
    · simp only [if_neg he, ih, List.filter_cons]
      try simp [he]
      try omega

theorem scrapeLoop_writes_scraped_at {f : FetchTask → Option Bundle} {s : Bool}
    {ex : DataFile} {r0 : DataFile} :
    ∀ {tasks : List FetchTask} {entries : List (String × LayoutRecord)}
      {errors : Nat} {writes : List DataFile},
      (∀ w ∈ writes, w.scraped_at = r0.scraped_at) →
      ∀ w ∈ (scrapeLoop f s ex r0 tasks entries errors writes).2.2,
        w.scraped_at = r0.scraped_at := by
  intro tasks
  induction tasks with
  | nil => intro entries errors writes h; exact h
  | cons t rest ih =>
    intro entries errors writes h
    rw [scrapeLoop]
    refine ih ?_
    intro w hw
    rcases List.mem_append.mp hw with hw | hw
    · exact h w hw
    · rw [List.mem_singleton.mp hw]
      rfl

theorem scrapeLoop_writes_length (f : FetchTask → Option Bundle) (s : Bool)
    (ex : DataFile) (r0 : DataFile) :
    ∀ (tasks : List FetchTask) (entries : List (String × LayoutRecord))
      (errors : Nat) (writes : List DataFile),
      (scrapeLoop f s ex r0 tasks entries errors writes).2.2.length
        = writes.length + tasks.length := by
  intro tasks
  induction tasks with
  | nil => intro entries errors writes; simp [scrapeLoop]
  | cons t rest ih =>
    intro entries errors writes
    rw [scrapeLoop, ih]
    simp [Nat.add_comm, Nat.add_assoc, Nat.add_left_comm]

/-! ### Metadata reconciler lemmas -/

theorem syncOptionalField_none (ev : Option String) :
    syncOptionalField none ev = (ev, false) := rfl

theorem syncOptionalField_empty (ev : Option String) :
    (syncOptionalField (some "") ev).1 = none := by
  cases ev <;> rfl

theorem syncOptionalField_some_ne {y : String} (h : y ≠ "") (ev : Option String) :
    (syncOptionalField (some y) ev).1 = some y := by
  by_cases he : ev = some y <;> simp [syncOptionalField, h, he]

theorem syncOptionalField_idem (yv ev : Option String) :
    syncOptionalField yv (syncOptionalField yv ev).1 = ((syncOptionalField yv ev).1, false) := by
  match yv with
  | none => rfl
  | some y =>
    by_cases hy : y = ""
    · subst hy
      cases ev <;> simp [syncOptionalField]
    · by_cases he : ev = some y
      · subst he
        simp [syncOptionalField, hy]
      · simp [syncOptionalField, hy, he]

theorem syncDefaultField_idem {α : Type} [DecidableEq α] (newv : α) (ev : Option α) :
    syncDefaultField newv (syncDefaultField newv ev).1 = ((syncDefaultField newv ev).1, false) := by
  by_cases he : ev = some newv <;> simp [syncDefaultField, he]

theorem syncEntry_idem (yml : LayoutDef) (e : LayoutRecord) :
    syncEntry yml (syncEntry yml e).1 = ((syncEntry yml e).1, false) := by
  simp only [syncEntry, syncOptionalField_idem, syncDefaultField_idem, Bool.or_self]

theorem metaStep_idem (L : List (String × LayoutDef)) (e : LayoutRecord) :
    metaStep L (metaStep L e).1 = ((metaStep L e).1, false) := by
  cases h : lookupA e.name L with
  | none =>
    have h1 : metaStep L e = (e, false) := by
      rw [metaStep, h]
    rw [h1, metaStep, h]
  | some yml =>
    have h1 : metaStep L e = syncEntry yml e := by
      rw [metaStep, h]
    have h2 : (syncEntry yml e).1.name = e.name := rfl
    rw [h1, metaStep, h2, h]
    exact syncEntry_idem yml e

theorem update_metadata_pass_idem (defs : List LayoutDef) (store : List LayoutRecord) :
    update_metadata_pass defs (update_metadata_pass defs store).1
      = ((update_metadata_pass defs store).1, 0) := by
  simp only [update_metadata_pass]
  have key : ∀ e ∈ (store.map (metaStep (dictUpdate [] (defs.map fun d => (d.name, d))))).map
      Prod.fst, metaStep (dictUpdate [] (defs.map fun d => (d.name, d))) e = (e, false) := by
    intro e he
    rcases List.mem_map.mp he with ⟨p, hp, rfl⟩
    rcases List.mem_map.mp hp with ⟨e0, _, rfl⟩
    exact metaStep_idem _ e0
  rw [List.map_congr_left key]
  simp [List.map_map, List.filter_map, Function.comp]

/-! ### Orphan auditor lemmas -/

theorem mem_orphanNames_iff (defs : List LayoutDef) (store : List LayoutRecord)
    (n : String) :
    n ∈ orphanNames defs store ↔ n ∈ store.map (·.name) ∧ ∀ d ∈ defs, d.name ≠ n := by
  rw [orphanNames, List.mem_filter]
  refine and_congr_right fun _ => ?_
  rw [Option.isNone_iff_eq_none, lookupA_eq_none_iff, mem_keysA_dictUpdate]
  constructor
  · intro h d hd he
    exact h (Or.inr (by rw [keysA, List.map_map]; exact List.mem_map.mpr ⟨d, hd, he⟩))
  · rintro h (hmem | hmem)
    · simp at hmem
    · rw [keysA, List.map_map] at hmem
      rcases List.mem_map.mp hmem with ⟨d, hd, he⟩
      exact h d hd he

/-! ### Run-skeleton lemmas -/

theorem mainScrapeRun_no_tasks {defs : List LayoutDef} {modes langs : List String}
    {existing : DataFile} {scope : RefreshScope}
    (h : runPlanTasks defs modes langs existing scope = [])
    (fetch : FetchTask → Option Bundle) (planNow finalNow : Nat) :
    mainScrapeRun defs modes langs existing scope fetch planNow finalNow = ([], 0) := by
  rw [runPlanTasks] at h
  simp [mainScrapeRun, h]

theorem mainScrapeRun_pos_eq {defs : List LayoutDef} {modes langs : List String}
    {existing : DataFile} {scope : RefreshScope}
    (h : runPlanTasks defs modes langs existing scope ≠ [])
    (fetch : FetchTask → Option Bundle) (planNow finalNow : Nat) :
    mainScrapeRun defs modes langs existing scope fetch planNow finalNow
      = ((scrapeLoop fetch (isSubsetRun scope) existing
            { scraped_at := some (existing.scraped_at.getD planNow), modes := modes,
              languages := langs,
              layouts := resultsLayouts (isSubsetRun scope) existing
                (planEntries defs modes langs existing scope) }
            (runPlanTasks defs modes langs existing scope)
            (planEntries defs modes langs existing scope) 0 []).2.2
          ++ [save_results
              { scraped_at := some (existing.scraped_at.getD planNow), modes := modes,
                languages := langs,
                layouts := resultsLayouts (isSubsetRun scope) existing
                  (mergeAll fetch (runPlanTasks defs modes langs existing scope)
                    (planEntries defs modes langs existing scope)) } finalNow true],
         (scrapeLoop fetch (isSubsetRun scope) existing
            { scraped_at := some (existing.scraped_at.getD planNow), modes := modes,
              languages := langs,
              layouts := resultsLayouts (isSubsetRun scope) existing
                (planEntries defs modes langs existing scope) }
            (runPlanTasks defs modes langs existing scope)
            (planEntries defs modes langs existing scope) 0 []).2.1) := by
  have hE : ¬((planAll (selectDefs defs scope) (dictOfRecords existing.layouts)
      modes langs (fullRefreshFlag scope)).2.isEmpty = true) := by
    rw [List.isEmpty_iff]
    intro hh
    exact h (by rw [runPlanTasks]; exact hh)
  simp only [mainScrapeRun]
  rw [if_neg hE, scrapeLoop_fst]
  rfl

theorem syncDefaultField_fst {α : Type} [DecidableEq α] (newv : α) (ev : Option α) :
    (syncDefaultField newv ev).1 = some newv := by
  by_cases he : ev = some newv <;> simp [syncDefaultField, he]

/-! ### Claim theorems -/

/-- C5 counterexample: the code's value predicate accepts `"inf"` (which the
float parser accepts but which is not a finite real number) and `"12%%"`
(where more than one trailing percent sign is stripped), while the claim's
reading — one optional trailing percent sign, then a finite real number —
rejects both. -/
theorem C5_counterexample :
    (is_valid_metric_value (.str "inf") = true
      ∧ isValidValueClaim (.str "inf") = false)
    ∧ (is_valid_metric_value (.str "12%%") = true
      ∧ isValidValueClaim (.str "12%%") = false) := by
  decide

/-- C5 (amended): the validity predicate on a single metric value returns
false when the value is null, not textual, the sentinel `"N/A"`, or prefixed
by the error marker; otherwise it strips every trailing percent sign and
returns true iff the remainder parses under the language's float parser
(which accepts infinity/NaN spellings besides finite decimals). In
particular it is false on null, `"N/A"`, `"Error: timeout"`, `"abc"` and
true on `"12.34%"`, `"1258.15"`, `"0"`. -/
theorem C5_valid_value :
    (∀ v, is_valid_metric_value v = isValidValueAmended v)
    ∧ is_valid_metric_value .null = false
    ∧ is_valid_metric_value .nonText = false
    ∧ is_valid_metric_value (.str "N/A") = false
    ∧ is_valid_metric_value (.str "Error: timeout") = false
    ∧ is_valid_metric_value (.str "abc") = false
    ∧ is_valid_metric_value (.str "12.34%") = true
    ∧ is_valid_metric_value (.str "1258.15") = true
    ∧ is_valid_metric_value (.str "0") = true := by
  refine ⟨fun v => ?_, by decide, by decide, by decide, by decide, by decide,
    by decide, by decide, by decide⟩
  cases v <;> rfl

/-- C7: the orphan audit fails with exit code 1 exactly when some persisted
record's name has no matching definition, enumerates every orphaned name in
its listing, never modifies the store, and succeeds (exit code 0) when there
is no orphan; the orphan set is precisely the store names with no
definition of the same name. -/
theorem C7_orphan_audit :
    ∀ (defs : List LayoutDef) (store : List LayoutRecord),
      (∀ n, n ∈ orphanNames defs store ↔
        n ∈ store.map (·.name) ∧ ∀ d ∈ defs, d.name ≠ n)
      ∧ ((check_orphaned_layouts defs store).exitCode = 1 ↔ orphanNames defs store ≠ [])
      ∧ ((check_orphaned_layouts defs store).exitCode = 0 ↔ orphanNames defs store = [])
      ∧ (∀ n, n ∈ orphanNames defs store → n ∈ (check_orphaned_layouts defs store).listed)
      ∧ (check_orphaned_layouts defs store).store = store := by
  intro defs store
  refine ⟨mem_orphanNames_iff defs store, ?_⟩
  cases hE : (orphanNames defs store).isEmpty with
  | true =>
    have h0 : orphanNames defs store = [] := List.isEmpty_iff.mp hE
    simp [check_orphaned_layouts, hE, h0]
  | false =>
    have h0 : orphanNames defs store ≠ [] := by
      intro hh
      rw [hh] at hE
      simp at hE
    simp [check_orphaned_layouts, hE, h0]

/-- C7 witness: a store record named `ghost` with no matching definition makes
the audit exit 1 and list `ghost`, leaving the store intact; a store with no
mismatch exits 0. -/
theorem C7_orphan_audit_witness :
    (check_orphaned_layouts [defAlpha] [recGhost]).exitCode = 1
    ∧ "ghost" ∈ (check_orphaned_layouts [defAlpha] [recGhost]).listed
    ∧ (check_orphaned_layouts [defAlpha] [recGhost]).store = [recGhost]
    ∧ (check_orphaned_layouts [defAlpha] [recAlphaValid]).exitCode = 0 :=
  ⟨(C7_orphan_audit [defAlpha] [recGhost]).2.1.mpr (by decide),
   (C7_orphan_audit [defAlpha] [recGhost]).2.2.2.1 "ghost" (by decide),
   (C7_orphan_audit [defAlpha] [recGhost]).2.2.2.2,
   (C7_orphan_audit [defAlpha] [recAlphaValid]).2.2.1.mpr (by decide)⟩

/-- C9: the metadata reconciler is idempotent — a second pass with the same
definitions changes nothing and reports zero changed records. -/
theorem C9_metadata_idempotent :
    ∀ (defs : List LayoutDef) (store : List LayoutRecord),
      (update_metadata_pass defs (update_metadata_pass defs store).1).1
        = (update_metadata_pass defs store).1
      ∧ (update_metadata_pass defs (update_metadata_pass defs store).1).2 = 0 := by
  intro defs store
  constructor
  · rw [update_metadata_pass_idem]
  · rw [update_metadata_pass_idem]

/-- C2: merging a fetch result writes the bundle into exactly the targeted
(layout, mode, language) slot — creating the mode mapping as needed — and
every other slot reads identically before and after. -/
theorem C2_merge_frame :
    ∀ (entries : List (String × LayoutRecord)) (t : FetchTask) (b : Bundle)
      (r : LayoutRecord), lookupA t.layout entries = some r →
      slotRead (applyResult entries t b) t.layout t.mode t.language = some b
      ∧ (∀ n mode lang, ¬(n = t.layout ∧ mode = t.mode ∧ lang = t.language) →
          slotRead (applyResult entries t b) n mode lang = slotRead entries n mode lang) := by
  intro entries t b r h
  exact ⟨applyResult_slot_self h b,
    fun n mode lang hne => applyResult_slot_frame entries t b n mode lang hne⟩

/-- C2 witness at a concrete store and task. -/
theorem C2_merge_frame_witness :
    slotRead (applyResult [("alpha", recAlphaValid)]
        ⟨"alpha", "ansi", "dutch", "u"⟩ allNullStats) "alpha" "ansi" "dutch"
      = some allNullStats
    ∧ slotRead (applyResult [("alpha", recAlphaValid)]
        ⟨"alpha", "ansi", "dutch", "u"⟩ allNullStats) "alpha" "ergo" "english"
      = slotRead [("alpha", recAlphaValid)] "alpha" "ergo" "english" :=
  ⟨(C2_merge_frame [("alpha", recAlphaValid)] ⟨"alpha", "ansi", "dutch", "u"⟩
      allNullStats recAlphaValid (by decide)).1,
   (C2_merge_frame [("alpha", recAlphaValid)] ⟨"alpha", "ansi", "dutch", "u"⟩
      allNullStats recAlphaValid (by decide)).2 "alpha" "ergo" "english" (by decide)⟩

/-- C3: a failed fetch yields the all-null bundle, which the merger still
writes into the task's slot; that bundle is invalid per the oracle, so an
only-invalid planning test on the merged record flags the slot again; the
scrape loop processes every task (one checkpoint per task, no abort) and
surfaces failures only through the aggregate error count. -/
theorem C3_failed_fetch :
    (∀ (fetch : FetchTask → Option Bundle) (t : FetchTask),
        fetch t = none → scrapeOutcome fetch t = allNullStats)
    ∧ isValidBundle allNullStats = false
    ∧ (∀ (entries : List (String × LayoutRecord)) (t : FetchTask) (r : LayoutRecord),
        lookupA t.layout entries = some r →
        slotRead (applyResult entries t allNullStats) t.layout t.mode t.language
            = some allNullStats
        ∧ ∃ r', lookupA t.layout (applyResult entries t allNullStats) = some r'
            ∧ needs_scraping (some r'.metrics) t.mode t.language false = true)
    ∧ (∀ (fetch : FetchTask → Option Bundle) (s : Bool) (ex r0 : DataFile)
        (tasks : List FetchTask) (entries : List (String × LayoutRecord)),
        (scrapeLoop fetch s ex r0 tasks entries 0 []).2.1
          = (tasks.filter fun t => effortIsNone (scrapeOutcome fetch t)).length
        ∧ (scrapeLoop fetch s ex r0 tasks entries 0 []).2.2.length = tasks.length)
    ∧ effortIsNone allNullStats = true := by
  refine ⟨?_, by decide, ?_, ?_, by decide⟩
  · intro fetch t h
    rw [scrapeOutcome, h]
  · intro entries t r h
    refine ⟨applyResult_slot_self h allNullStats, ?_⟩
    have hslot := applyResult_slot_self h allNullStats
    cases hr' : lookupA t.layout (applyResult entries t allNullStats) with
    | none =>
      rw [slotRead, hr'] at hslot
      simp at hslot
    | some r' =>
      refine ⟨r', rfl, ?_⟩
      rw [slotRead, hr', Option.some_bind] at hslot
      rw [needs_scraping_some, Bool.false_or, slotNeeds]
      cases hm : lookupA t.mode r'.metrics with
      | none => rfl
      | some lm =>
        rw [hm, Option.some_bind] at hslot
        show (match lookupA t.language lm with
          | none => true
          | some b => has_invalid_metrics b) = true
        rw [hslot]
        show has_invalid_metrics allNullStats = true
        decide
  · intro fetch s ex r0 tasks entries
    constructor
    · rw [scrapeLoop_errors]
      simp
    · rw [scrapeLoop_writes_length]
      simp

/-- C3 witness at a concrete failing fetch and store. -/
theorem C3_failed_fetch_witness :
    scrapeOutcome (fun _ => none) ⟨"alpha", "ergo", "english", "u"⟩ = allNullStats
    ∧ slotRead (applyResult [("alpha", recAlphaValid)]
        ⟨"alpha", "ergo", "english", "u"⟩ allNullStats) "alpha" "ergo" "english"
      = some allNullStats :=
  ⟨C3_failed_fetch.1 (fun _ => none) ⟨"alpha", "ergo", "english", "u"⟩ rfl,
   (C3_failed_fetch.2.2.1 [("alpha", recAlphaValid)] ⟨"alpha", "ergo", "english", "u"⟩
      recAlphaValid (by decide)).1⟩

/-- C1: the planner includes a (layout, mode, language) triple of the desired
key space iff the refresh scope forces it (force-all, or force-subset
containing the layout), or the store has no record for the layout, no bundle
for the mode, no bundle for the (mode, language) pair, or an invalid existing
bundle; and over a store in which every desired slot is present and valid,
only-invalid planning yields the empty task list. -/
theorem C1_planner :
    (∀ (defs : List LayoutDef) (modes languages : List String) (existing : DataFile)
       (scope : RefreshScope) (d : LayoutDef) (mode lang : String),
       d ∈ selectDefs defs scope →
       ((selectDefs defs scope).map (·.name)).Nodup →
       d.link ≠ "" → mode ∈ modes → lang ∈ languages →
       ((⟨d.name, mode, lang, d.link⟩ : FetchTask)
           ∈ runPlanTasks defs modes languages existing scope
         ↔ slotForced scope d.name ∨ slotStaleInStore existing d.name mode lang))
    ∧ (∀ (defs : List LayoutDef) (modes languages : List String) (existing : DataFile),
       (∀ d ∈ defs, ∀ mode ∈ modes, ∀ lang ∈ languages,
          slotPresentValid existing d.name mode lang = true) →
       runPlanTasks defs modes languages existing .onlyInvalid = []) := by
  constructor
  · intro defs modes languages existing scope d mode lang hd hnodup hlink hmode hlang
    have hmet : (buildEntry d (lookupA d.name (dictOfRecords existing.layouts))).metrics
        = storeMetrics existing d.name := rfl
    rw [runPlanTasks, planAll_snd, List.mem_flatMap]
    constructor
    · rintro ⟨d', hd', ht⟩
      rw [layoutTasks] at ht
      by_cases hl' : d'.link = ""
      · rw [if_pos hl'] at ht
        simp at ht
      · rw [if_neg hl'] at ht
        rcases (mem_planModes _ _).mp ht with ⟨mode', hmode', lang', hlang', heq, hcond⟩
        have hname : d.name = d'.name := congrArg FetchTask.layout heq
        have hdd : d' = d :=
          List.inj_on_of_nodup_map hnodup hd' hd hname.symm
        have hmode2 : mode = mode' := congrArg FetchTask.mode heq
        have hlang2 : lang = lang' := congrArg FetchTask.language heq
        rw [hdd, ← hmode2, ← hlang2, hmet] at hcond
        rcases Bool.or_eq_true_iff.mp hcond with hfr | hstale
        · exact Or.inl ((slotForced_iff_flag hd).mpr hfr)
        · exact Or.inr ((slotStale_iff_slotNeeds existing d.name mode lang).mpr hstale)
    · intro hrhs
      refine ⟨d, hd, ?_⟩
      rw [layoutTasks, if_neg hlink]
      refine (mem_planModes _ _).mpr ⟨mode, hmode, lang, hlang, rfl, ?_⟩
      rw [hmet, Bool.or_eq_true_iff]
      rcases hrhs with hforced | hstale
      · exact Or.inl ((slotForced_iff_flag hd).mp hforced)
      · exact Or.inr ((slotStale_iff_slotNeeds existing d.name mode lang).mp hstale)
  · intro defs modes languages existing hvalid
    rw [runPlanTasks, planAll_snd]
    refine List.eq_nil_iff_forall_not_mem.mpr fun t ht => ?_
    rcases List.mem_flatMap.mp ht with ⟨d, hd, ht2⟩
    rw [layoutTasks] at ht2
    by_cases hl : d.link = ""
    · rw [if_pos hl] at ht2
      simp at ht2
    · rw [if_neg hl] at ht2
      rcases (mem_planModes _ _).mp ht2 with ⟨mode, hmode, lang, hlang, _, hcond⟩
      have hfr : fullRefreshFlag .onlyInvalid = false := rfl
      rw [hfr, Bool.false_or] at hcond
      have hmet : (buildEntry d (lookupA d.name (dictOfRecords existing.layouts))).metrics
          = storeMetrics existing d.name := rfl
      rw [hmet] at hcond
      have hns := slotPresentValid_not_stale (hvalid d hd mode hmode lang hlang)
      rw [hcond] at hns
      exact Bool.noConfusion hns

/-- C1 witness: a concrete instance of the inclusion equivalence, and a
concrete all-valid store over which only-invalid planning is empty. -/
theorem C1_planner_witness :
    ((⟨"alpha", "ergo", "english", "https://x"⟩ : FetchTask)
        ∈ runPlanTasks [defAlpha] ["ergo"] ["english"] fileAlpha .onlyInvalid
      ↔ slotForced .onlyInvalid "alpha"
        ∨ slotStaleInStore fileAlpha "alpha" "ergo" "english")
    ∧ runPlanTasks [defAlpha] ["ergo"] ["english"] fileAlpha .onlyInvalid = [] :=
  ⟨C1_planner.1 [defAlpha] ["ergo"] ["english"] fileAlpha .onlyInvalid defAlpha
      "ergo" "english" (by decide) (by decide) (by decide) (by decide) (by decide),
   C1_planner.2 [defAlpha] ["ergo"] ["english"] fileAlpha (by decide)⟩

/-- C4: a run that plans zero tasks performs no save at all (so the persisted
timestamp is untouched); per-task checkpoint writes carry the prior
timestamp unchanged; the metadata-sync write never touches the timestamp;
and a run that executed at least one task ends with a final persist carrying
the new timestamp. -/
theorem C4_timestamp :
    (∀ (defs : List LayoutDef) (modes langs : List String) (existing : DataFile)
       (scope : RefreshScope) (fetch : FetchTask → Option Bundle) (planNow finalNow : Nat),
       runPlanTasks defs modes langs existing scope = [] →
       (mainScrapeRun defs modes langs existing scope fetch planNow finalNow).1 = [])
    ∧ (∀ (defs : List LayoutDef) (modes langs : List String) (existing : DataFile)
       (scope : RefreshScope) (fetch : FetchTask → Option Bundle) (planNow finalNow t0 : Nat),
       existing.scraped_at = some t0 →
       ∀ w ∈ (mainScrapeRun defs modes langs existing scope fetch planNow finalNow).1.dropLast,
         w.scraped_at = some t0)
    ∧ (∀ (defs : List LayoutDef) (file : DataFile) (now : Nat),
       (update_metadata_save defs file now).scraped_at = file.scraped_at)
    ∧ (∀ (defs : List LayoutDef) (modes langs : List String) (existing : DataFile)
       (scope : RefreshScope) (fetch : FetchTask → Option Bundle) (planNow finalNow : Nat),
       runPlanTasks defs modes langs existing scope ≠ [] →
       ∃ F, (mainScrapeRun defs modes langs existing scope fetch planNow finalNow).1.getLast?
             = some F ∧ F.scraped_at = some finalNow) := by
  refine ⟨?_, ?_, ?_, ?_⟩
  · intro defs modes langs existing scope fetch planNow finalNow h
    rw [mainScrapeRun_no_tasks h]
  · intro defs modes langs existing scope fetch planNow finalNow t0 hts w hw
    by_cases h : runPlanTasks defs modes langs existing scope = []
    · rw [mainScrapeRun_no_tasks h] at hw
      simp at hw
    · rw [mainScrapeRun_pos_eq h, List.dropLast_concat] at hw
      have := scrapeLoop_writes_scraped_at (by intro w hw2; simp at hw2) w hw
      rw [hts] at this
      exact this
  · intro defs file now
    rfl
  · intro defs modes langs existing scope fetch planNow finalNow h
    rw [mainScrapeRun_pos_eq h]
    exact ⟨_, List.getLast?_concat _, rfl⟩

/-- C4 witness: on a one-layout store with a fully valid slot, only-invalid
planning writes nothing; a force-all run checkpoints with the old timestamp 5
and finishes with the new timestamp 99. -/
theorem C4_timestamp_witness :
    (mainScrapeRun [defAlpha] ["ergo"] ["english"] fileAlpha .onlyInvalid
        (fun _ => none) 7 99).1 = []
    ∧ (∀ w ∈ (mainScrapeRun [defAlpha] ["ergo"] ["english"] fileAlpha .forceAll
        (fun _ => none) 7 99).1.dropLast, w.scraped_at = some 5)
    ∧ (∃ F, (mainScrapeRun [defAlpha] ["ergo"] ["english"] fileAlpha .forceAll
        (fun _ => none) 7 99).1.getLast? = some F ∧ F.scraped_at = some 99) :=
  ⟨C4_timestamp.1 [defAlpha] ["ergo"] ["english"] fileAlpha .onlyInvalid
      (fun _ => none) 7 99 (by decide),
   C4_timestamp.2.1 [defAlpha] ["ergo"] ["english"] fileAlpha .forceAll
      (fun _ => none) 7 99 5 (by decide),
   C4_timestamp.2.2.2 [defAlpha] ["ergo"] ["english"] fileAlpha .forceAll
      (fun _ => none) 7 99 (by decide)⟩

/-- C6: under force-subset, only slots of layouts in the subset are planned,
and every persisted record of a layout outside the subset passes through to
the final persisted output unchanged — including layouts with no definition
in this run. -/
theorem C6_subset_frame :
    ∀ (defs : List LayoutDef) (modes langs : List String) (existing : DataFile)
      (ns : List String) (fetch : FetchTask → Option Bundle) (planNow finalNow : Nat),
      ns ≠ [] →
      (∀ t ∈ runPlanTasks defs modes langs existing (.forceSubset ns), t.layout ∈ ns)
      ∧ ((existing.layouts.map (·.name)).Nodup →
         ∀ r ∈ existing.layouts, r.name ∉ ns →
         runPlanTasks defs modes langs existing (.forceSubset ns) ≠ [] →
         ∃ F, (mainScrapeRun defs modes langs existing (.forceSubset ns) fetch planNow
                 finalNow).1.getLast? = some F ∧ r ∈ F.layouts) := by
  intro defs modes langs existing ns fetch planNow finalNow hns
  constructor
  · intro t ht
    rw [runPlanTasks, planAll_snd] at ht
    rcases List.mem_flatMap.mp ht with ⟨d, hd, ht2⟩
    rw [layoutTasks] at ht2
    by_cases hl : d.link = ""
    · rw [if_pos hl] at ht2
      simp at ht2
    · rw [if_neg hl] at ht2
      rcases (mem_planModes _ _).mp ht2 with ⟨mode, _, lang, _, heq, _⟩
      have : t.layout = d.name := congrArg FetchTask.layout heq ▸ rfl
      rw [congrArg FetchTask.layout heq]
      exact mem_selectDefs_subset hns hd
  · intro hnodup r hr hrns htasks
    refine ⟨_, by rw [mainScrapeRun_pos_eq htasks]; exact List.getLast?_concat _, ?_⟩
    show r ∈ (resultsLayouts (isSubsetRun (.forceSubset ns)) existing
      (mergeAll fetch (runPlanTasks defs modes langs existing (.forceSubset ns))
        (planEntries defs modes langs existing (.forceSubset ns))))
    have hsub : isSubsetRun (.forceSubset ns) = true := by
      simp [isSubsetRun, hns]
    rw [resultsLayouts, hsub, if_pos rfl]
    have hfresh : ∀ kv ∈ mergeAll fetch
        (runPlanTasks defs modes langs existing (.forceSubset ns))
        (planEntries defs modes langs existing (.forceSubset ns)), kv.1 ≠ r.name := by
      intro kv hkv he
      have hk : kv.1 ∈ keysA (mergeAll fetch
          (runPlanTasks defs modes langs existing (.forceSubset ns))
          (planEntries defs modes langs existing (.forceSubset ns))) :=
        List.mem_map.mpr ⟨kv, hkv, rfl⟩
      rw [mergeAll_keysA] at hk
      rcases planAll_go_keys (dictOfRecords existing.layouts) modes langs
          (fullRefreshFlag (.forceSubset ns)) (selectDefs defs (.forceSubset ns))
          ([], []) kv.1 hk with hk2 | hk2
      · simp at hk2
      · rcases List.mem_map.mp hk2 with ⟨d, hd, hdname⟩
        have : d.name ∈ ns := mem_selectDefs_subset hns hd
        rw [hdname, he] at this
        exact hrns this
    have hlook : lookupA r.name (dictUpdate (dictOfRecords existing.layouts)
        (mergeAll fetch (runPlanTasks defs modes langs existing (.forceSubset ns))
          (planEntries defs modes langs existing (.forceSubset ns))))
        = some r := by
      rw [lookupA_dictUpdate_not_mem hfresh]
      exact lookupA_dictOfRecords_self hnodup hr
    exact mem_snd_of_lookupA hlook

/-- C6 witness: a force-subset run over `beta` leaves `alpha`'s record intact
in the final output while planning only `beta` slots. -/
theorem C6_subset_frame_witness :
    (∀ t ∈ runPlanTasks [defAlpha, ⟨"beta", "v", none, none, none, none⟩]
        ["ergo"] ["english"]
        ⟨some 5, ["ergo"], ["english"], [recAlphaValid]⟩ (.forceSubset ["beta"]),
      t.layout ∈ ["beta"])
    ∧ (∃ F, (mainScrapeRun [defAlpha, ⟨"beta", "v", none, none, none, none⟩]
        ["ergo"] ["english"] ⟨some 5, ["ergo"], ["english"], [recAlphaValid]⟩
        (.forceSubset ["beta"]) (fun _ => none) 7 99).1.getLast? = some F
        ∧ recAlphaValid ∈ F.layouts) :=
  ⟨(C6_subset_frame [defAlpha, ⟨"beta", "v", none, none, none, none⟩] ["ergo"] ["english"]
      ⟨some 5, ["ergo"], ["english"], [recAlphaValid]⟩ ["beta"] (fun _ => none) 7 99
      (by decide)).1,
   (C6_subset_frame [defAlpha, ⟨"beta", "v", none, none, none, none⟩] ["ergo"] ["english"]
      ⟨some 5, ["ergo"], ["english"], [recAlphaValid]⟩ ["beta"] (fun _ => none) 7 99
      (by decide)).2 (by decide) recAlphaValid (by decide) (by decide) (by decide)⟩

/-- C10: a definition whose link is missing/empty contributes no fetch tasks
and no layout record; in a run without forced subset, once at least one task
runs and the final save occurs, no record of that name remains in the
persisted output (the existing record is dropped rather than passed
through). -/
theorem C10_empty_link :
    ∀ (defs : List LayoutDef) (modes langs : List String) (existing : DataFile)
      (scope : RefreshScope) (fetch : FetchTask → Option Bundle)
      (planNow finalNow : Nat) (n : String),
      (scope = .onlyInvalid ∨ scope = .forceAll) →
      (∀ d ∈ defs, d.name = n → d.link = "") →
      (∀ t ∈ runPlanTasks defs modes langs existing scope, t.layout ≠ n)
      ∧ (runPlanTasks defs modes langs existing scope ≠ [] →
         ∃ F, (mainScrapeRun defs modes langs existing scope fetch planNow
                 finalNow).1.getLast? = some F ∧ ∀ r ∈ F.layouts, r.name ≠ n) := by
  intro defs modes langs existing scope fetch planNow finalNow n hscope hlink
  have hsel : selectDefs defs scope = defs := by
    rcases hscope with h | h <;> rw [h] <;> rfl
  have hsub : isSubsetRun scope = false := by
    rcases hscope with h | h <;> rw [h] <;> rfl
  constructor
  · intro t ht he
    rw [runPlanTasks, planAll_snd, hsel] at ht
    rcases List.mem_flatMap.mp ht with ⟨d, hd, ht2⟩
    rw [layoutTasks] at ht2
    by_cases hl : d.link = ""
    · rw [if_pos hl] at ht2
      simp at ht2
    · rw [if_neg hl] at ht2
      rcases (mem_planModes _ _).mp ht2 with ⟨mode, _, lang, _, heq, _⟩
      have hnm : t.layout = d.name := congrArg FetchTask.layout heq
      rw [he] at hnm
      exact hl (hlink d hd hnm.symm)
  · intro htasks
    refine ⟨_, by rw [mainScrapeRun_pos_eq htasks]; exact List.getLast?_concat _, ?_⟩
    show ∀ r ∈ (resultsLayouts (isSubsetRun scope) existing
      (mergeAll fetch (runPlanTasks defs modes langs existing scope)
        (planEntries defs modes langs existing scope))), r.name ≠ n
    rw [resultsLayouts, hsub]
    simp only [Bool.false_eq_true, if_false]
    intro r hrm he
    rcases List.mem_map.mp hrm with ⟨kv, hkv, hkvr⟩
    have hinv : kv.2.name = kv.1 := by
      refine mergeAll_names_inv ?_ kv hkv
      refine planAll_go_names_inv (dictOfRecords existing.layouts) modes langs
        (fullRefreshFlag scope) (selectDefs defs scope) ([], []) ?_
      intro kv2 hkv2
      simp at hkv2
    have hkeynone : lookupA n (planEntries defs modes langs existing scope) = none := by
      rw [planEntries]
      rw [planAll]
      rw [planAll_go_fst_lookup (dictOfRecords existing.layouts) modes langs
        (fullRefreshFlag scope) (selectDefs defs scope) ([], [])
        (by rw [hsel]; exact hlink)]
      rfl
    have hk : kv.1 ∈ keysA (planEntries defs modes langs existing scope) := by
      have : kv.1 ∈ keysA (mergeAll fetch (runPlanTasks defs modes langs existing scope)
          (planEntries defs modes langs existing scope)) :=
        List.mem_map.mpr ⟨kv, hkv, rfl⟩
      rw [mergeAll_keysA] at this
      exact this
    rw [hkvr] at hinv
    rw [he] at hinv
    rw [← hinv] at hk
    rw [lookupA_eq_none_iff] at hkeynone
    exact hkeynone hk

/-- C10 witness: with `alpha`'s definition lacking a link and a second layout
driving one task, the final output holds no record named `alpha` even though
the prior store had one. -/
theorem C10_empty_link_witness :
    (∀ t ∈ runPlanTasks [⟨"alpha", "", none, none, none, none⟩,
        ⟨"beta", "v", none, none, none, none⟩] ["ergo"] ["english"]
        fileAlpha .onlyInvalid, t.layout ≠ "alpha")
    ∧ (∃ F, (mainScrapeRun [⟨"alpha", "", none, none, none, none⟩,
        ⟨"beta", "v", none, none, none, none⟩] ["ergo"] ["english"]
        fileAlpha .onlyInvalid (fun _ => none) 7 99).1.getLast? = some F
        ∧ ∀ r ∈ F.layouts, r.name ≠ "alpha") :=
  ⟨(C10_empty_link [⟨"alpha", "", none, none, none, none⟩,
        ⟨"beta", "v", none, none, none, none⟩] ["ergo"] ["english"]
        fileAlpha .onlyInvalid (fun _ => none) 7 99 "alpha"
        (Or.inl rfl) (by decide)).1,
   (C10_empty_link [⟨"alpha", "", none, none, none, none⟩,
        ⟨"beta", "v", none, none, none, none⟩] ["ergo"] ["english"]
        fileAlpha .onlyInvalid (fun _ => none) 7 99 "alpha"
        (Or.inl rfl) (by decide)).2 (by decide)⟩

/-- C8 counterexample: a definition that omits the website field entirely
leaves the previously stored website in place — the reconciler does not
remove it, contradicting the claim's "empty or absent → removed" and its
scenario. -/
theorem C8_counterexample :
    (update_metadata_pass [defCNoWebsite] [recCWebsite]).1.map (·.website)
      = [some "http://x"] := by
  decide

/-- C8 (amended): a non-empty optional value from the definition overwrites
the store value; a present-but-empty value removes the field; an absent value
leaves the store field untouched; and the thumb field is always present
afterwards, defaulted to false when the definition omits it. -/
theorem C8_metadata_optional :
    ∀ (yml : LayoutDef) (e : LayoutRecord),
      (∀ w, yml.website = some w → w ≠ "" → (syncEntry yml e).1.website = some w)
      ∧ (yml.website = some "" → (syncEntry yml e).1.website = none)
      ∧ (yml.website = none → (syncEntry yml e).1.website = e.website)
      ∧ (∀ y, yml.year = some y → y ≠ "" → (syncEntry yml e).1.year = some y)
      ∧ (yml.year = some "" → (syncEntry yml e).1.year = none)
      ∧ (yml.year = none → (syncEntry yml e).1.year = e.year)
      ∧ (syncEntry yml e).1.thumb = some (yml.thumb.getD false) := by
  intro yml e
  have hw : (syncEntry yml e).1.website = (syncOptionalField yml.website e.website).1 := rfl
  have hy : (syncEntry yml e).1.year = (syncOptionalField yml.year e.year).1 := rfl
  have ht : (syncEntry yml e).1.thumb = (syncDefaultField (yml.thumb.getD false) e.thumb).1 := rfl
  refine ⟨?_, ?_, ?_, ?_, ?_, ?_, ?_⟩
  · intro w hweb hne
    rw [hw, hweb]
    exact syncOptionalField_some_ne hne e.website
  · intro hweb
    rw [hw, hweb]
    exact syncOptionalField_empty e.website
  · intro hweb
    rw [hw, hweb, syncOptionalField_none]
  · intro y hyr hne
    rw [hy, hyr]
    exact syncOptionalField_some_ne hne e.year
  · intro hyr
    rw [hy, hyr]
    exact syncOptionalField_empty e.year
  · intro hyr
    rw [hy, hyr, syncOptionalField_none]
  · rw [ht]
    exact syncDefaultField_fst _ e.thumb

/-- C8 witness: an explicitly empty website in the definition removes the
stored website, while the thumb field remains present defaulted to false. -/
theorem C8_metadata_optional_witness :
    (syncEntry defCEmptyWebsite recCWebsite).1.website = none
    ∧ (syncEntry defCEmptyWebsite recCWebsite).1.thumb = some false :=
  ⟨(C8_metadata_optional defCEmptyWebsite recCWebsite).2.1 rfl,
   (C8_metadata_optional defCEmptyWebsite recCWebsite).2.2.2.2.2.2⟩

end ScrapeStats
